import Mathlib

/-!
# je-ne-change-pas: a polymorphic XOR encoder

A shallow embedding of `je_ne_change_pas.go` and theorems about it.

Conventions of the embedding:
* a Go `byte` is a natural number below 256 (`Fin 256`); byte arithmetic is
  written on the underlying naturals with an explicit `% 256`;
* a Go `int` that only ever holds a length or a small counter is a `Nat`;
* the process-wide random source is made explicit: every call site of
  `rand.Intn` receives its own raw draw, reduced modulo the bound, so that
  every value the call can return is reachable and no other is;
* the external assembler (keystone) and the file system are parameters;
* a Go panic and a returned `error` are the two constructors of `Fault`.
-/

namespace JeNeChangePas

/-- A Go `byte`. -/
abbrev Byte := Fin 256

/-- Ways a Go function can fail: a returned `error` value or a run-time panic. -/
inductive Fault where
  | error (msg : String)
  | panic (msg : String)
deriving DecidableEq, Repr

/-- Go's `b ^ key` on bytes. -/
def xorByte (b key : Byte) : Byte :=
  ⟨(b.val ^^^ key.val) % 256, Nat.mod_lt _ (by decide)⟩

/-- The body of the `for i, b := range payload` loop of `encodePayload`,
run over the remaining elements starting at index `i`. -/
def encodeLoop (key : Byte) : Nat → List Byte → List Byte → List Byte
  | _, [], encodedPayload => encodedPayload
  | i, b :: rest, encodedPayload =>
      encodeLoop key (i + 1) rest (encodedPayload.set i (xorByte b key))

/-- Source `encodePayload`: allocate `len(payload)` zero bytes, then store
`b ^ key` at every index. -/
def encodePayload (payload : List Byte) (key : Byte) : List Byte :=
  let encodedPayload : List Byte := List.replicate payload.length 0
  encodeLoop key 0 payload encodedPayload

/-- Go's `byte(n)` conversion of a non-negative `int`: truncation to 8 bits. -/
def byteOfNat (n : Nat) : Byte := ⟨n % 256, Nat.mod_lt _ (by decide)⟩

/-- Source `rand.Intn(n)` given the raw draw: a value in `[0, n)`, and a panic
when `n` is not positive. -/
def intn (n raw : Nat) : Except Fault Nat :=
  if n = 0 then .error (.panic "invalid argument to Intn") else .ok (raw % n)

/-- Go's slice indexing `xs[i]`, which panics out of range. -/
def index {α : Type} (xs : List α) (i : Nat) : Except Fault α :=
  match xs[i]? with
  | some x => .ok x
  | none => .error (.panic "index out of range")

/-- The raw draws of the random source, one per call site of `rand.Intn`
that a run of `encode` can reach. -/
structure Rand where
  /-- Draw of `randByte` in `encode`. -/
  key : Nat
  /-- Draw of `randReg(32, [])` in `genDcdStb`. -/
  pcReg : Nat
  /-- Draw of `rand.Intn(12)`. -/
  fnstenvOffset : Nat
  /-- Draw of `rand.Intn(2)`. -/
  coin : Nat
  /-- Draw of `rand.Intn(5)`. -/
  instructionsCount : Nat
  /-- Draw of `randReg(8, ["CL", pcReg])`. -/
  xorKeyReg : Nat
  /-- Draw of `randFPU`. -/
  fpu : Nat
deriving Repr

/-- Source `REGISTERS`: each entry maps a bit width to the register name of
that width (a Go `map[int]string`, here an association list). -/
def REGISTERS : List (List (Int × String)) :=
  [ [(32, "EAX"), (16, "AH"), (8, "AL")],
    [(32, "EBX"), (16, "BH"), (8, "BL")],
    [(32, "ECX"), (16, "CX"), (8, "CL")],
    [(32, "EDX"), (16, "DX"), (8, "DL")],
    [(32, "ESI"), (16, "SI")],
    [(32, "EDI"), (16, "DI")] ]

/-- The inner loop of `randReg`: is `regName` equal to some excluded name? -/
def isExcluded (regName : String) : List String → Bool
  | [] => false
  | exReg :: rest => if regName = exReg then true else isExcluded regName rest

/-- The outer loop of `randReg`: the candidates collected in `availableRegs`. -/
def collectRegs (size : Int) (excludeRegs : List String) :
    List (List (Int × String)) → List String → List String
  | [], availableRegs => availableRegs
  | reg :: rest, availableRegs =>
      match reg.lookup size with
      | some regName =>
          if isExcluded regName excludeRegs then
            collectRegs size excludeRegs rest availableRegs
          else
            collectRegs size excludeRegs rest (availableRegs ++ [regName])
      | none => collectRegs size excludeRegs rest availableRegs

/-- The list `availableRegs` of `randReg` when its loop has finished. -/
def availableRegs (size : Int) (excludeRegs : List String) : List String :=
  collectRegs size excludeRegs REGISTERS []

/-- Source `randReg`, given the raw draw of its `rand.Intn`. -/
def randReg (size : Int) (excludeRegs : List String) (raw : Nat) : Except Fault String :=
  match intn (availableRegs size excludeRegs).length raw with
  | .error e => .error e
  | .ok i => index (availableRegs size excludeRegs) i

/-- One `for opCode := lo; opCode <= hi; opCode++` loop of `randFPU`. -/
def fpuRange (first : Byte) (lo hi : Nat) : List (List Byte) :=
  (List.range' lo (hi + 1 - lo)).map fun opCode => [first, byteOfNat opCode]

/-- The catalog `fpuOpcodes` that `randFPU` builds. -/
def fpuOpcodes : List (List Byte) :=
  fpuRange 0xd9 0xe8 0xee ++ fpuRange 0xda 0xc0 0xdf ++ fpuRange 0xdb 0xc0 0xdf ++
    fpuRange 0xdd 0xc0 0xc7 ++
    [[0xd9, 0xd0], [0xd9, 0xe1], [0xd9, 0xf6], [0xd9, 0xf7], [0xd9, 0xe5]]

/-- Source `randFPU`, given the raw draw of its `rand.Intn`. -/
def randFPU (raw : Nat) : Except Fault (List Byte) :=
  match intn fpuOpcodes.length raw with
  | .error e => .error e
  | .ok i => index fpuOpcodes i

/-- Source `randByte`, given the raw draw of its `rand.Intn(256)`. -/
def randByte (raw : Nat) : Byte := byteOfNat (raw % 256)

/-- Go's `%#x` verb on a non-negative integer: `0x` and lowercase hex digits. -/
def hexLit (n : Nat) : String := "0x" ++ String.mk (Nat.toDigits 16 n)

/-- Go's `hex.EncodeToString`: two lowercase hex digits per byte. -/
def hexEncodeToString : List Byte → String
  | [] => ""
  | v :: rest =>
      String.mk [Nat.digitChar (v.val / 16), Nat.digitChar (v.val % 16)] ++
        hexEncodeToString rest

/-- Source `formatPld`. -/
def formatPld (pld : List Byte) : String :=
  "\\x" ++ hexEncodeToString pld

/-- Everything `genDcdStb` has computed when it reaches its first call of the
assembler (source lines 98 to 121): the registers drawn, the running offset,
the two instruction texts and the junk bytes already written to the buffer. -/
structure StubText where
  pcReg : String
  fnstenvOffset : Nat
  offsetToEncodedPayload : Nat
  getPcAsm : String
  xorKeyReg : String
  xorAsm : String
  junk : List Byte
deriving DecidableEq, Repr

/-- The text of the `else` branch of `genDcdStb` (source line 118), where `disp`
is the value printed as the displacement. -/
def loopText (xorKeyReg : String) (key : Byte) (pcReg : String) (disp : Nat) : String :=
  "mov " ++ xorKeyReg ++ ", " ++ hexLit key.val ++ "; decode: xor [" ++ pcReg ++ " + CL + " ++
    hexLit disp ++ "], " ++ xorKeyReg ++ "; loop decode; "

/-- The text of the `pldLen < 256` branch of `genDcdStb` (source line 115). -/
def counterText (pldLen : Nat) : String :=
  "mov CL, " ++ hexLit pldLen ++ "; "

/-- Source `genDcdStb` up to its first call of the assembler. -/
def genDcdStbText (pldLen : Nat) (key : Byte) (rnd : Rand) : Except Fault StubText :=
  match randReg 32 [] rnd.pcReg with
  | .error e => .error e
  | .ok pcReg =>
    match intn 12 rnd.fnstenvOffset with
    | .error e => .error e
    | .ok fnstenvOffset =>
      let offsetToEncodedPayload := fnstenvOffset + 6
      let getPcAsm := "fnstenv [esp-" ++ hexLit fnstenvOffset ++ "]; "
      match intn 2 rnd.coin with
      | .error e => .error e
      | .ok coin =>
        match (if coin = 0 then
                 match intn 5 rnd.instructionsCount with
                 | .error e => .error e
                 | .ok drawn =>
                   let instructionsCount := drawn + 1
                   .ok (offsetToEncodedPayload + 4 * instructionsCount,
                        getPcAsm ++ ("pop " ++ pcReg))
               else .ok (offsetToEncodedPayload, getPcAsm) :
               Except Fault (Nat × String)) with
        | .error e => .error e
        | .ok (offsetToEncodedPayload, getPcAsm) =>
          match randReg 8 ["CL", pcReg] rnd.xorKeyReg with
          | .error e => .error e
          | .ok xorKeyReg =>
            let xorAsm := ""
            match (if pldLen < 256 then
                     (offsetToEncodedPayload + 2, counterText pldLen)
                   else
                     (offsetToEncodedPayload + 4,
                      xorAsm ++ loopText xorKeyReg key pcReg (offsetToEncodedPayload + 4 - 1)) :
                   Nat × String) with
            | (offsetToEncodedPayload, xorAsm) =>
              match randFPU rnd.fpu with
              | .error e => .error e
              | .ok junk =>
                .ok { pcReg := pcReg, fnstenvOffset := fnstenvOffset,
                      offsetToEncodedPayload := offsetToEncodedPayload,
                      getPcAsm := getPcAsm, xorKeyReg := xorKeyReg, xorAsm := xorAsm,
                      junk := junk }

/-- Source `genDcdStb`. The parameter `asmbl` is source `asmbl`, the call of the
external assembler: it returns the encoding of a text or an `error`. -/
def genDcdStb (asmbl : String → Except Fault (List Byte)) (pldLen : Nat) (key : Byte)
    (rnd : Rand) : Except Fault (List Byte) :=
  match genDcdStbText pldLen key rnd with
  | .error e => .error e
  | .ok t =>
    let dcdStb := [] ++ t.junk
    match asmbl t.getPcAsm with
    | .error e => .error e
    | .ok assembledPcAsm =>
      let dcdStb := dcdStb ++ assembledPcAsm
      match asmbl t.xorAsm with
      | .error e => .error e
      | .ok assembledXorAsm =>
        let dcdStb := dcdStb ++ assembledXorAsm
        .ok dcdStb

/-- Source `encode`. The parameter `readPld` is source `readPld`, the read of
the payload file. -/
def encode (readPld : String → Except Fault (List Byte))
    (asmbl : String → Except Fault (List Byte)) (rnd : Rand) (payloadPath : String) :
    Except Fault (List Byte) :=
  match readPld payloadPath with
  | .error e => .error e
  | .ok payload =>
    let key := randByte rnd.key
    let encodedPayload := encodePayload payload key
    match genDcdStb asmbl payload.length key rnd with
    | .error e => .error e
    | .ok dcdStb => .ok (dcdStb ++ encodedPayload)

/-- What a run of the program leaves behind: the lines written to standard
output by `fmt.Println` and the exit status. -/
structure Outcome where
  stdout : List String
  exitCode : Nat
deriving DecidableEq, Repr

/-- Source `main`, where `args` is `os.Args`. A panic ends the process with
status 2 and nothing on standard output. -/
def main (readPld : String → Except Fault (List Byte))
    (asmbl : String → Except Fault (List Byte)) (rnd : Rand) (args : List String) : Outcome :=
  if args.length ≠ 2 then
    { stdout := ["Usage: go run je_ne_change_pas.go <payload_file_path>"], exitCode := 1 }
  else
    let payloadPath := args.getD 1 ""
    match encode readPld asmbl rnd payloadPath with
    | .error (.panic _) => { stdout := [], exitCode := 2 }
    | .error (.error msg) =>
        { stdout := ["Error:  " ++ msg, formatPld []], exitCode := 0 }
    | .ok encodedPayload => { stdout := [formatPld encodedPayload], exitCode := 0 }

/-- The expression `xs[rand.Intn(len(xs))]` that ends both `randReg` and `randFPU`,
given the raw draw. -/
def pick {α : Type} (xs : List α) (raw : Nat) : Except Fault α :=
  match intn xs.length raw with
  | .error e => .error e
  | .ok i => index xs i

/-- The value that `offsetToEncodedPayload` has in `genDcdStb` when the branch on
the payload length is reached (source lines 100 and 105), as a function of the
draws. -/
def offsetAfterGetPc (rnd : Rand) : Nat :=
  rnd.fnstenvOffset % 12 + 6 +
    (if rnd.coin % 2 = 0 then 4 * (rnd.instructionsCount % 5 + 1) else 0)

/-! # Theorems -/

/-! ## The payload obfuscator -/

theorem xorByte_val (b key : Byte) : (xorByte b key).val = b.val ^^^ key.val := by
  have hlt : b.val ^^^ key.val < 2 ^ 8 := Nat.xor_lt_two_pow b.isLt key.isLt
  simp only [xorByte]
  exact Nat.mod_eq_of_lt hlt

theorem xorByte_xorByte (b key : Byte) : xorByte (xorByte b key) key = b := by
  apply Fin.ext
  rw [xorByte_val, xorByte_val, Nat.xor_assoc, Nat.xor_self, Nat.xor_zero]

/-- The store loop, started at index `i` on a buffer long enough, overwrites
exactly the window `[i, i + len)` with the encoded bytes. -/
theorem encodeLoop_eq (key : Byte) (payload : List Byte) :
    ∀ (i : Nat) (buf : List Byte), i + payload.length ≤ buf.length →
      encodeLoop key i payload buf =
        buf.take i ++ payload.map (fun b => xorByte b key) ++ buf.drop (i + payload.length) := by
  induction payload with
  | nil => intro i buf _; simp [encodeLoop]
  | cons b rest ih =>
    intro i buf h
    simp only [List.length_cons] at h
    have hi : i < buf.length := by omega
    rw [encodeLoop, ih (i + 1) _ (by simp only [List.length_set]; omega)]
    have htake : List.take (i + 1) (buf.set i (xorByte b key)) = buf.take i ++ [xorByte b key] := by
      rw [List.set_eq_take_append_cons_drop, if_pos hi, List.take_append_eq_append_take]
      simp [List.length_take, Nat.min_eq_left (Nat.le_of_lt hi)]
    rw [htake, List.drop_set_of_lt _ _ (by omega)]
    simp [Nat.add_assoc, Nat.add_comm 1 rest.length]

theorem encodePayload_eq_map (payload : List Byte) (key : Byte) :
    encodePayload payload key = payload.map (fun b => xorByte b key) := by
  simp [encodePayload, encodeLoop_eq]

/-! ## Drawing from a list -/

theorem intn_ok (n raw : Nat) (h : n ≠ 0) : intn n raw = .ok (raw % n) := by
  simp [intn, h]

theorem index_ok {α : Type} (xs : List α) (i : Nat) (h : i < xs.length) :
    index xs i = .ok (xs.get ⟨i, h⟩) := by
  simp [index, List.getElem?_eq_getElem h]

theorem pick_ok {α : Type} (xs : List α) (raw : Nat) (h : xs ≠ []) :
    ∃ x, x ∈ xs ∧ pick xs raw = .ok x := by
  have hlen : xs.length ≠ 0 := by simpa using h
  have hi : raw % xs.length < xs.length := Nat.mod_lt _ (Nat.pos_of_ne_zero hlen)
  refine ⟨xs.get ⟨raw % xs.length, hi⟩, List.get_mem _ _ _, ?_⟩
  simp only [pick, intn_ok _ _ hlen, index_ok _ _ hi]

theorem pick_nil {α : Type} (raw : Nat) :
    pick ([] : List α) raw = .error (.panic "invalid argument to Intn") := by
  simp [pick, intn]

theorem randReg_eq_pick (size : Int) (excludeRegs : List String) (raw : Nat) :
    randReg size excludeRegs raw = pick (availableRegs size excludeRegs) raw := rfl

theorem randFPU_eq_pick (raw : Nat) : randFPU raw = pick fpuOpcodes raw := rfl

theorem availableRegs_32 :
    availableRegs 32 [] = ["EAX", "EBX", "ECX", "EDX", "ESI", "EDI"] := by decide

theorem availableRegs_8 (pcReg : String) (h : pcReg ∈ availableRegs 32 []) :
    availableRegs 8 ["CL", pcReg] = ["AL", "BL", "DL"] := by
  rw [availableRegs_32] at h
  simp only [List.mem_cons, List.mem_singleton, List.not_mem_nil, or_false] at h
  rcases h with h | h | h | h | h | h <;> subst h <;> decide

theorem fpuOpcodes_ne_nil : fpuOpcodes ≠ [] := by decide

/-- The text and offset computation of `genDcdStb` never fails, and its result is
determined by the draws as follows. -/
theorem genDcdStbText_ok (pldLen : Nat) (key : Byte) (rnd : Rand) :
    ∃ pcReg xorKeyReg junk, pcReg ∈ availableRegs 32 [] ∧
      xorKeyReg ∈ ["AL", "BL", "DL"] ∧ junk ∈ fpuOpcodes ∧
      pick (availableRegs 32 []) rnd.pcReg = .ok pcReg ∧
      pick ["AL", "BL", "DL"] rnd.xorKeyReg = .ok xorKeyReg ∧
      pick fpuOpcodes rnd.fpu = .ok junk ∧
      genDcdStbText pldLen key rnd = .ok
        { pcReg := pcReg
          fnstenvOffset := rnd.fnstenvOffset % 12
          offsetToEncodedPayload := offsetAfterGetPc rnd + (if pldLen < 256 then 2 else 4)
          getPcAsm := "fnstenv [esp-" ++ hexLit (rnd.fnstenvOffset % 12) ++ "]; " ++
            (if rnd.coin % 2 = 0 then "pop " ++ pcReg else "")
          xorKeyReg := xorKeyReg
          xorAsm := if pldLen < 256 then counterText pldLen
            else loopText xorKeyReg key pcReg (offsetAfterGetPc rnd + 4 - 1)
          junk := junk } := by
  obtain ⟨pcReg, hpc, hpick⟩ := pick_ok (availableRegs 32 []) rnd.pcReg (by decide)
  obtain ⟨xorKeyReg, hkr, hkpick⟩ := pick_ok ["AL", "BL", "DL"] rnd.xorKeyReg (by decide)
  obtain ⟨junk, hj, hjpick⟩ := pick_ok fpuOpcodes rnd.fpu fpuOpcodes_ne_nil
  refine ⟨pcReg, xorKeyReg, junk, hpc, hkr, hj, hpick, hkpick, hjpick, ?_⟩
  simp only [genDcdStbText, randReg_eq_pick, randFPU_eq_pick, hpick, availableRegs_8 pcReg hpc,
    hkpick, hjpick, intn, offsetAfterGetPc]
  by_cases hc : rnd.coin % 2 = 0 <;> by_cases hl : pldLen < 256 <;> simp [hc, hl]

/-! ## The register catalog -/

theorem isExcluded_iff (regName : String) (excludeRegs : List String) :
    isExcluded regName excludeRegs = true ↔ regName ∈ excludeRegs := by
  induction excludeRegs with
  | nil => simp [isExcluded]
  | cons exReg rest ih =>
    by_cases h : regName = exReg
    · simp [isExcluded, h]
    · simp [isExcluded, h, ih]

theorem mem_collectRegs (size : Int) (excludeRegs : List String) (name : String) :
    ∀ (regs : List (List (Int × String))) (acc : List String),
      name ∈ collectRegs size excludeRegs regs acc ↔
        name ∈ acc ∨ ∃ reg, reg ∈ regs ∧ reg.lookup size = some name ∧ name ∉ excludeRegs := by
  intro regs
  induction regs with
  | nil => intro acc; simp [collectRegs]
  | cons reg rest ih =>
    intro acc
    rw [collectRegs]
    cases hlook : reg.lookup size with
    | none =>
      simp only [ih, List.mem_cons]
      constructor
      · rintro (h | ⟨r, hr, h⟩)
        · exact Or.inl h
        · exact Or.inr ⟨r, Or.inr hr, h⟩
      · rintro (h | ⟨r, hr | hr, h1, h2⟩)
        · exact Or.inl h
        · subst hr; rw [hlook] at h1; cases h1
        · exact Or.inr ⟨r, hr, h1, h2⟩
    | some regName =>
      by_cases hex : isExcluded regName excludeRegs = true
      · have hmem := (isExcluded_iff regName excludeRegs).1 hex
        simp only [if_pos hex, ih, List.mem_cons]
        constructor
        · rintro (h | ⟨r, hr, h⟩)
          · exact Or.inl h
          · exact Or.inr ⟨r, Or.inr hr, h⟩
        · rintro (h | ⟨r, hr | hr, h1, h2⟩)
          · exact Or.inl h
          · subst hr; rw [hlook] at h1
            cases h1; exact absurd hmem h2
          · exact Or.inr ⟨r, hr, h1, h2⟩
      · have hmem : regName ∉ excludeRegs := fun h => hex ((isExcluded_iff _ _).2 h)
        simp only [if_neg hex, ih, List.mem_cons, List.mem_append, List.not_mem_nil, or_false]
        constructor
        · rintro ((h | h) | ⟨r, hr, h⟩)
          · exact Or.inl h
          · subst h; exact Or.inr ⟨reg, Or.inl rfl, hlook, hmem⟩
          · exact Or.inr ⟨r, Or.inr hr, h⟩
        · rintro (h | ⟨r, hr | hr, h1, h2⟩)
          · exact Or.inl (Or.inl h)
          · subst hr; rw [hlook] at h1
            cases h1; exact Or.inl (Or.inr rfl)
          · exact Or.inr ⟨r, hr, h1, h2⟩

theorem mem_availableRegs (size : Int) (excludeRegs : List String) (name : String) :
    name ∈ availableRegs size excludeRegs ↔
      ∃ reg, reg ∈ REGISTERS ∧ reg.lookup size = some name ∧ name ∉ excludeRegs := by
  simp [availableRegs, mem_collectRegs]

theorem pick_mem {α : Type} (xs : List α) (raw : Nat) (x : α) (h : pick xs raw = .ok x) :
    x ∈ xs := by
  by_cases hne : xs = []
  · subst hne; rw [pick_nil] at h; cases h
  · obtain ⟨y, hy, hpick⟩ := pick_ok xs raw hne
    rw [hpick] at h
    cases h
    exact hy

theorem pick_error {α : Type} (xs : List α) (raw : Nat) (f : Fault) (h : pick xs raw = .error f) :
    xs = [] ∧ f = .panic "invalid argument to Intn" := by
  by_cases hne : xs = []
  · subst hne; rw [pick_nil] at h; cases h; exact ⟨rfl, rfl⟩
  · obtain ⟨y, _, hpick⟩ := pick_ok xs raw hne
    rw [hpick] at h
    cases h

/-! ## The stub synthesizer -/

theorem genDcdStb_ok_iff (asmbl : String → Except Fault (List Byte)) (pldLen : Nat) (key : Byte)
    (rnd : Rand) (stub : List Byte) :
    genDcdStb asmbl pldLen key rnd = .ok stub ↔
      ∃ t a b, genDcdStbText pldLen key rnd = .ok t ∧ asmbl t.getPcAsm = .ok a ∧
        asmbl t.xorAsm = .ok b ∧ stub = t.junk ++ a ++ b := by
  unfold genDcdStb
  cases ht : genDcdStbText pldLen key rnd with
  | error e => simp
  | ok t =>
    cases ha : asmbl t.getPcAsm with
    | error e => simp [ha]
    | ok a =>
      cases hb : asmbl t.xorAsm with
      | error e => simp [ha, hb]
      | ok b => simp [ha, hb, eq_comm]

/-- The two sides of the length boundary and the empty payload, evaluated. -/
theorem genDcdStbText_boundary :
    (genDcdStbText 255 0x41 ⟨0, 0, 0, 1, 0, 0, 0⟩).map (fun t => (t.xorAsm, t.offsetToEncodedPayload)) =
        .ok ("mov CL, 0xff; ", 8) ∧
      (genDcdStbText 0 0x41 ⟨0, 0, 0, 1, 0, 0, 0⟩).map (fun t => (t.xorAsm, t.offsetToEncodedPayload)) =
        .ok ("mov CL, 0x0; ", 8) ∧
      (genDcdStbText 256 0x41 ⟨0, 0, 0, 1, 0, 0, 0⟩).map (fun t => (t.xorAsm, t.offsetToEncodedPayload)) =
        .ok ("mov AL, 0x41; decode: xor [EAX + CL + 0x9], AL; loop decode; ", 10) :=
  ⟨rfl, rfl, rfl⟩

theorem formatPld_length (pld : List Byte) : (formatPld pld).length = 2 + 2 * pld.length := by
  have h : ∀ l : List Byte, (hexEncodeToString l).length = 2 * l.length := by
    intro l
    induction l with
    | nil => rfl
    | cons v rest ih =>
      simp only [hexEncodeToString, String.length_append, ih, List.length_cons]
      have : (String.mk [Nat.digitChar (v.val / 16), Nat.digitChar (v.val % 16)]).length = 2 := rfl
      omega
  simp only [formatPld, String.length_append, h]
  have : ("\\x" : String).length = 2 := rfl
  omega

/-! ## Facts about the texts -/

set_option maxRecDepth 100000 in
theorem counterText_no_xor (pldLen : Nat) (h : pldLen < 256) :
    ¬ ("xor".toList <:+: (counterText pldLen).toList) := by
  have key : ∀ n : Fin 256, ¬ ("xor".toList <:+: (counterText n.val).toList) := by decide
  exact key ⟨pldLen, h⟩

theorem fnstenvText_no_pop (fnstenvOffset : Nat) (h : fnstenvOffset < 12) :
    ¬ ("pop".toList <:+: ("fnstenv [esp-" ++ hexLit fnstenvOffset ++ "]; ").toList) := by
  have key : ∀ n : Fin 12,
      ¬ ("pop".toList <:+: ("fnstenv [esp-" ++ hexLit n.val ++ "]; ").toList) := by decide
  exact key ⟨fnstenvOffset, h⟩

theorem popText_semicolons (fnstenvOffset : Nat) (pcReg : String) (h : fnstenvOffset < 12)
    (hpc : pcReg ∈ availableRegs 32 []) :
    ("fnstenv [esp-" ++ hexLit fnstenvOffset ++ "]; " ++ ("pop " ++ pcReg)).toList.count ';' = 1 := by
  have key : ∀ n : Fin 12, ∀ r ∈ availableRegs 32 [],
      ("fnstenv [esp-" ++ hexLit n.val ++ "]; " ++ ("pop " ++ r)).toList.count ';' = 1 := by
    decide
  exact key ⟨fnstenvOffset, h⟩ pcReg hpc

theorem xorByte_key_injective (b k1 k2 : Byte) (h : xorByte b k1 = xorByte b k2) : k1 = k2 := by
  have hv := congrArg Fin.val h
  rw [xorByte_val, xorByte_val] at hv
  exact Fin.ext (Nat.xor_right_inj.1 hv)

theorem xorByte_zero (b : Byte) : xorByte b 0 = b := by
  apply Fin.ext
  rw [xorByte_val]
  simp

theorem fpuOpcodes_length : fpuOpcodes.length = 84 := by decide

set_option maxRecDepth 100000 in
theorem fpuOpcodes_nodup : fpuOpcodes.Nodup := by decide

set_option maxRecDepth 100000 in
theorem fpuOpcodes_entries :
    ∀ e ∈ fpuOpcodes, e.length = 2 ∧
      (e.head? = some 0xd9 ∨ e.head? = some 0xda ∨ e.head? = some 0xdb ∨ e.head? = some 0xdd) := by
  decide

/-! ## The claims -/

/-- C1: for every payload (empty, one byte, longer than 255 bytes) and every key
byte, encoding twice with the same key gives the payload back. -/
theorem encodePayload_involutive (payload : List Byte) (key : Byte) :
    encodePayload (encodePayload payload key) key = payload := by
  rw [encodePayload_eq_map, encodePayload_eq_map, List.map_map]
  conv_rhs => rw [← List.map_id payload]
  apply List.map_congr_left
  intro b _
  exact xorByte_xorByte b key

/-- C2: the encoded payload has the length of the payload, its byte at every
index below that length is the payload byte XOR the key (and it has no byte at
any other index), and the encoding of the empty payload is empty; being a total
function, `encodePayload` has no failure. -/
theorem encodePayload_spec (payload : List Byte) (key : Byte) :
    (encodePayload payload key).length = payload.length ∧
      (∀ i : Nat, ((encodePayload payload key)[i]?).map Fin.val =
        (payload[i]?).map (fun b => b.val ^^^ key.val)) ∧
      encodePayload [] key = [] := by
  refine ⟨by simp [encodePayload_eq_map], ?_, rfl⟩
  intro i
  rw [encodePayload_eq_map, List.getElem?_map]
  cases payload[i]? with
  | none => rfl
  | some b => simp [xorByte_val]

/-- C3: on the two bytes 0x01 0xAB the code returns one backslash-x prefix
followed by all the hex digits, six characters and not the eight of
`\x01\xab`; on the empty input it returns the bare prefix; in general the
output has `2 + 2 * len` characters, not `4 * len`. -/
theorem formatPld_single_prefix :
    formatPld [0x01, 0xab] = "\\x01ab" ∧ (formatPld [0x01, 0xab]).length = 6 ∧
      formatPld [] = "\\x" ∧
      ∀ pld : List Byte, (formatPld pld).length = 2 + 2 * pld.length :=
  ⟨by decide, by decide, by decide, formatPld_length⟩

/-- C4: take the extraction branch with a payload of at least 256 bytes and let
only the filler count differ between two runs (one filler, two fillers). Both runs
emit the same junk and the same position-capture text, and their decode texts
differ only in the displacement printed, 4 apart. So for every assembler whose
encoding of the decode text has a length that does not depend on the displacement
printed in it (the shape invariance the reference design relies on), the two stubs
are equally long, and for no constant `c` is displacement plus `c` the length of
the stub in both runs: the displacement is not the distance to the end of the
stub. -/
theorem displacement_ignores_stub_length (asmbl : String → Except Fault (List Byte))
    (pldLen : Nat) (key : Byte) (rnd : Rand) (stub1 stub2 : List Byte)
    (hcoin : rnd.coin % 2 = 0) (hlen : 256 ≤ pldLen)
    (hshape : ∀ reg k pc d1 d2 x1 x2, asmbl (loopText reg k pc d1) = .ok x1 →
      asmbl (loopText reg k pc d2) = .ok x2 → x1.length = x2.length)
    (h1 : genDcdStb asmbl pldLen key { rnd with instructionsCount := 0 } = .ok stub1)
    (h2 : genDcdStb asmbl pldLen key { rnd with instructionsCount := 1 } = .ok stub2) :
    stub1.length = stub2.length ∧
      (∀ c : Nat, ¬ (rnd.fnstenvOffset % 12 + 13 + c = stub1.length ∧
        rnd.fnstenvOffset % 12 + 17 + c = stub2.length)) ∧
      ∃ t1 t2, genDcdStbText pldLen key { rnd with instructionsCount := 0 } = .ok t1 ∧
        genDcdStbText pldLen key { rnd with instructionsCount := 1 } = .ok t2 ∧
        t1.junk = t2.junk ∧ t1.getPcAsm = t2.getPcAsm ∧
        t1.xorAsm = loopText t1.xorKeyReg key t1.pcReg (rnd.fnstenvOffset % 12 + 13) ∧
        t2.xorAsm = loopText t1.xorKeyReg key t1.pcReg (rnd.fnstenvOffset % 12 + 17) := by
  have hl : ¬ pldLen < 256 := by omega
  obtain ⟨t1, a1, b1, ht1, ha1, hb1, hs1⟩ := (genDcdStb_ok_iff _ _ _ _ _).1 h1
  obtain ⟨t2, a2, b2, ht2, ha2, hb2, hs2⟩ := (genDcdStb_ok_iff _ _ _ _ _).1 h2
  obtain ⟨pc, kr, junk, -, -, -, hpc, hkr, hj, hT1⟩ :=
    genDcdStbText_ok pldLen key { rnd with instructionsCount := 0 }
  obtain ⟨pc2, kr2, junk2, -, -, -, hpc2, hkr2, hj2, hT2⟩ :=
    genDcdStbText_ok pldLen key { rnd with instructionsCount := 1 }
  simp only at hpc hkr hj hpc2 hkr2 hj2
  rw [hpc] at hpc2; rw [hkr] at hkr2; rw [hj] at hj2
  cases hpc2; cases hkr2; cases hj2
  rw [hT1] at ht1; rw [hT2] at ht2
  cases ht1; cases ht2
  simp only [offsetAfterGetPc, hcoin, hl, if_true, if_false] at ha1 hb1 ha2 hb2 hT1 hT2
  rw [ha1] at ha2
  cases ha2
  have hb := hshape _ _ _ _ _ _ _ hb1 hb2
  have hstub : stub1.length = stub2.length := by
    rw [hs1, hs2]
    simp [hb]
  refine ⟨hstub, ?_, _, _, hT1, hT2, rfl, rfl, ?_, ?_⟩
  · rintro c ⟨hc1, hc2⟩
    omega
  · simp
  · simp

/-- The witness of C4: an assembler that encodes every text as one byte. -/
theorem displacement_ignores_stub_length_witness :
    ([0xd9, 0xe8, 0x90, 0x90] : List Byte).length = ([0xd9, 0xe8, 0x90, 0x90] : List Byte).length ∧
      (∀ c : Nat, ¬ (0 % 12 + 13 + c = ([0xd9, 0xe8, 0x90, 0x90] : List Byte).length ∧
        0 % 12 + 17 + c = ([0xd9, 0xe8, 0x90, 0x90] : List Byte).length)) ∧
      ∃ t1 t2, genDcdStbText 256 0x41 ⟨0, 0, 0, 0, 0, 0, 0⟩ = .ok t1 ∧
        genDcdStbText 256 0x41 ⟨0, 0, 0, 0, 1, 0, 0⟩ = .ok t2 ∧
        t1.junk = t2.junk ∧ t1.getPcAsm = t2.getPcAsm ∧
        t1.xorAsm = loopText t1.xorKeyReg 0x41 t1.pcReg (0 % 12 + 13) ∧
        t2.xorAsm = loopText t1.xorKeyReg 0x41 t1.pcReg (0 % 12 + 17) :=
  displacement_ignores_stub_length (fun _ => .ok [0x90]) 256 0x41 ⟨0, 0, 0, 0, 0, 0, 0⟩
    [0xd9, 0xe8, 0x90, 0x90] [0xd9, 0xe8, 0x90, 0x90] (by decide) (by decide)
    (by intro _ _ _ _ _ x1 x2 h1 h2; cases h1; cases h2; rfl) rfl rfl

/-- C6: with the position register EAX, the draw 0 of the key register returns
AL, which belongs to the same catalog entry as EAX: naming the 32-bit register
in the exclusion list excludes no 8-bit register. -/
theorem xorKeyReg_aliases_pcReg :
    randReg 32 [] 0 = .ok "EAX" ∧ randReg 8 ["CL", "EAX"] 0 = .ok "AL" ∧
      REGISTERS.head? = some [(32, "EAX"), (16, "AH"), (8, "AL")] ∧
      genDcdStbText 256 0x41 ⟨0, 0, 0, 0, 0, 0, 0⟩ = .ok
        { pcReg := "EAX", fnstenvOffset := 0, offsetToEncodedPayload := 14,
          getPcAsm := "fnstenv [esp-0x0]; pop EAX", xorKeyReg := "AL",
          xorAsm := "mov AL, 0x41; decode: xor [EAX + CL + 0xd], AL; loop decode; ",
          junk := [0xd9, 0xe8] } :=
  ⟨rfl, rfl, rfl, rfl⟩

/-- C7: for every payload length, key and draws, `genDcdStb` obtains a key
register, and it is one of AL, BL, DL and not CL; and for every string passed
as `pcReg` and every draw, `randReg(8, ["CL", pcReg])` does not return CL. -/
theorem xorKeyReg_never_CL (pldLen : Nat) (key : Byte) (rnd : Rand) :
    (∃ t, genDcdStbText pldLen key rnd = .ok t ∧ t.xorKeyReg ∈ ["AL", "BL", "DL"] ∧
        t.xorKeyReg ≠ "CL") ∧
      ∀ (pcReg : String) (raw : Nat), randReg 8 ["CL", pcReg] raw ≠ .ok "CL" := by
  constructor
  · obtain ⟨pcReg, xorKeyReg, junk, -, hkr, -, -, -, -, ht⟩ := genDcdStbText_ok pldLen key rnd
    refine ⟨_, ht, hkr, ?_⟩
    intro h
    simp only at h
    rw [h] at hkr
    revert hkr
    decide
  · intro pcReg raw h
    rw [randReg_eq_pick] at h
    have hmem := pick_mem _ _ _ h
    rw [mem_availableRegs] at hmem
    obtain ⟨_, _, _, hnot⟩ := hmem
    exact hnot (List.mem_cons_self _ _)

/-- C8: the branch of `genDcdStb` is selected by `pldLen < 256`: below 256 the
decode text is exactly the counter move and 2 is added to the running offset,
from 256 on it is the key move followed by the decode loop and 4 is added. -/
theorem genDcdStb_length_branch (pldLen : Nat) (key : Byte) (rnd : Rand) :
    ∃ t, genDcdStbText pldLen key rnd = .ok t ∧
      t.xorAsm =
        (if pldLen < 256 then "mov CL, " ++ hexLit pldLen ++ "; "
         else "mov " ++ t.xorKeyReg ++ ", " ++ hexLit key.val ++ "; decode: xor [" ++ t.pcReg ++
           " + CL + " ++ hexLit (t.offsetToEncodedPayload - 1) ++ "], " ++ t.xorKeyReg ++
           "; loop decode; ") ∧
      t.offsetToEncodedPayload = offsetAfterGetPc rnd + (if pldLen < 256 then 2 else 4) := by
  obtain ⟨pcReg, xorKeyReg, junk, -, -, -, -, -, -, ht⟩ := genDcdStbText_ok pldLen key rnd
  refine ⟨_, ht, ?_, rfl⟩
  by_cases hl : pldLen < 256
  · simp [hl, counterText]
  · simp [hl, loopText]

/-- C9: `randReg` either returns the name that some catalog entry has for the
requested width, a name outside the exclusion list, or it fails (by a panic);
it fails exactly when every catalog name of that width is excluded. -/
theorem randReg_contract (size : Int) (excludeRegs : List String) (raw : Nat) :
    ((∃ name, randReg size excludeRegs raw = .ok name ∧
          (∃ reg, reg ∈ REGISTERS ∧ reg.lookup size = some name) ∧ name ∉ excludeRegs) ∨
        ∃ msg, randReg size excludeRegs raw = .error (.panic msg)) ∧
      ((∃ f, randReg size excludeRegs raw = .error f) ↔
        ∀ reg name, reg ∈ REGISTERS → reg.lookup size = some name → name ∈ excludeRegs) := by
  rw [randReg_eq_pick]
  have hnil : availableRegs size excludeRegs = [] ↔
      ∀ reg name, reg ∈ REGISTERS → reg.lookup size = some name → name ∈ excludeRegs := by
    rw [List.eq_nil_iff_forall_not_mem]
    constructor
    · intro h reg name hreg hlook
      by_contra hex
      exact h name ((mem_availableRegs _ _ _).2 ⟨reg, hreg, hlook, hex⟩)
    · intro h name hmem
      obtain ⟨reg, hreg, hlook, hex⟩ := (mem_availableRegs _ _ _).1 hmem
      exact hex (h reg name hreg hlook)
  constructor
  · by_cases hne : availableRegs size excludeRegs = []
    · right
      rw [hne, pick_nil]
      exact ⟨_, rfl⟩
    · left
      obtain ⟨name, hmem, hpick⟩ := pick_ok _ raw hne
      obtain ⟨reg, hreg, hlook, hex⟩ := (mem_availableRegs _ _ _).1 hmem
      exact ⟨name, hpick, ⟨reg, hreg, hlook⟩, hex⟩
  · rw [← hnil]
    constructor
    · rintro ⟨f, hf⟩
      exact (pick_error _ _ _ hf).1
    · intro h
      rw [h, pick_nil]
      exact ⟨_, rfl⟩

/-- C10: when the payload loads and stub synthesis succeeds, `encode` returns the
stub followed by the payload encoded with the key that was given to `genDcdStb`;
the artifact is as long as the stub plus the payload, and it is the stub alone
when the payload is empty. -/
theorem encode_eq_stub_append (readPld : String → Except Fault (List Byte))
    (asmbl : String → Except Fault (List Byte)) (rnd : Rand) (payloadPath : String)
    (payload stub : List Byte) (hread : readPld payloadPath = .ok payload)
    (hstub : genDcdStb asmbl payload.length (randByte rnd.key) rnd = .ok stub) :
    encode readPld asmbl rnd payloadPath =
        .ok (stub ++ encodePayload payload (randByte rnd.key)) ∧
      (stub ++ encodePayload payload (randByte rnd.key)).length = stub.length + payload.length ∧
      (payload = [] → stub ++ encodePayload payload (randByte rnd.key) = stub) := by
  refine ⟨?_, ?_, ?_⟩
  · simp only [encode, hread, hstub]
  · simp [encodePayload_eq_map]
  · intro h
    subst h
    simp [encodePayload_eq_map]

set_option maxRecDepth 100000 in
/-- The witness of C10: 300 zero bytes, and the empty payload. -/
theorem encode_eq_stub_append_witness :
    (encode (fun _ => .ok (List.replicate 300 0)) (fun _ => .ok [0x90])
          ⟨0x41, 0, 0, 0, 0, 0, 0⟩ "payload.bin" =
        .ok ([0xd9, 0xe8, 0x90, 0x90] ++ encodePayload (List.replicate 300 0) (randByte 0x41)) ∧
      (([0xd9, 0xe8, 0x90, 0x90] : List Byte) ++
          encodePayload (List.replicate 300 0) (randByte 0x41)).length =
        ([0xd9, 0xe8, 0x90, 0x90] : List Byte).length + (List.replicate 300 (0 : Byte)).length ∧
      ((List.replicate 300 (0 : Byte)) = [] →
        ([0xd9, 0xe8, 0x90, 0x90] : List Byte) ++
          encodePayload (List.replicate 300 0) (randByte 0x41) = [0xd9, 0xe8, 0x90, 0x90])) ∧
    (encode (fun _ => .ok []) (fun _ => .ok [0x90]) ⟨0x41, 0, 0, 0, 0, 0, 0⟩ "payload.bin" =
        .ok ([0xd9, 0xe8, 0x90, 0x90] ++ encodePayload [] (randByte 0x41)) ∧
      (([0xd9, 0xe8, 0x90, 0x90] : List Byte) ++ encodePayload [] (randByte 0x41)).length =
        ([0xd9, 0xe8, 0x90, 0x90] : List Byte).length + ([] : List Byte).length ∧
      (([] : List Byte) = [] →
        ([0xd9, 0xe8, 0x90, 0x90] : List Byte) ++ encodePayload [] (randByte 0x41) =
          [0xd9, 0xe8, 0x90, 0x90])) :=
  ⟨encode_eq_stub_append (fun _ => .ok (List.replicate 300 0)) (fun _ => .ok [0x90])
      ⟨0x41, 0, 0, 0, 0, 0, 0⟩ "payload.bin" (List.replicate 300 0) [0xd9, 0xe8, 0x90, 0x90]
      rfl rfl,
    encode_eq_stub_append (fun _ => .ok []) (fun _ => .ok [0x90])
      ⟨0x41, 0, 0, 0, 0, 0, 0⟩ "payload.bin" [] [0xd9, 0xe8, 0x90, 0x90] rfl rfl⟩

/-- C11: whatever the assembler does, `genDcdStb` computes its two texts; when
the position-capture text fails to assemble, or it assembles and the decode text
fails, `genDcdStb` returns that error and no bytes (not even the junk bytes);
it returns a stub exactly when both texts assemble; and `encode` returns the error
of `genDcdStb` and no artifact. -/
theorem asm_failure_aborts (asmbl : String → Except Fault (List Byte)) (rnd : Rand) :
    (∀ (pldLen : Nat) (key : Byte), ∃ t, genDcdStbText pldLen key rnd = .ok t ∧
        (∀ e, asmbl t.getPcAsm = .error e → genDcdStb asmbl pldLen key rnd = .error e) ∧
        (∀ a e, asmbl t.getPcAsm = .ok a → asmbl t.xorAsm = .error e →
          genDcdStb asmbl pldLen key rnd = .error e) ∧
        ((∃ stub, genDcdStb asmbl pldLen key rnd = .ok stub) ↔
          ∃ a b, asmbl t.getPcAsm = .ok a ∧ asmbl t.xorAsm = .ok b)) ∧
      ∀ (readPld : String → Except Fault (List Byte)) (payloadPath : String)
        (payload : List Byte) (e : Fault), readPld payloadPath = .ok payload →
        genDcdStb asmbl payload.length (randByte rnd.key) rnd = .error e →
        encode readPld asmbl rnd payloadPath = .error e := by
  constructor
  · intro pldLen key
    obtain ⟨pcReg, xorKeyReg, junk, -, -, -, -, -, -, ht⟩ := genDcdStbText_ok pldLen key rnd
    refine ⟨_, ht, ?_, ?_, ?_⟩
    · intro e he
      simp only [genDcdStb, ht, he]
    · intro a e ha he
      simp only [genDcdStb, ht, ha, he]
    · constructor
      · rintro ⟨stub, hstub⟩
        obtain ⟨t, a, b, ht2, ha, hb, -⟩ := (genDcdStb_ok_iff _ _ _ _ _).1 hstub
        rw [ht] at ht2
        cases ht2
        exact ⟨a, b, ha, hb⟩
      · rintro ⟨a, b, ha, hb⟩
        exact ⟨_, (genDcdStb_ok_iff _ _ _ _ _).2 ⟨_, a, b, ht, ha, hb, rfl⟩⟩
  · intro readPld payloadPath payload e hread hstub
    simp only [encode, hread, hstub]

/-- The witness of C11: an assembler that rejects every text. -/
theorem asm_failure_aborts_witness :
    genDcdStb (fun _ => .error (.error "failed to assemble")) 300 0x41
        ⟨0x41, 0, 0, 0, 0, 0, 0⟩ = .error (.error "failed to assemble") ∧
      encode (fun _ => .ok [0x01, 0x02, 0x03]) (fun _ => .error (.error "failed to assemble"))
        ⟨0x41, 0, 0, 0, 0, 0, 0⟩ "payload.bin" = .error (.error "failed to assemble") :=
  have h := asm_failure_aborts (fun _ => .error (.error "failed to assemble"))
    ⟨0x41, 0, 0, 0, 0, 0, 0⟩
  ⟨rfl, h.2 (fun _ => .ok [0x01, 0x02, 0x03]) "payload.bin" [0x01, 0x02, 0x03] _ rfl rfl⟩

/-- C12: with exactly one argument and a failing `encode`, `main` prints the
error line and then still prints the line that `formatPld` makes of the nil
artifact, the bare backslash-x, and ends with status 0. -/
theorem main_prints_after_error (readPld : String → Except Fault (List Byte))
    (asmbl : String → Except Fault (List Byte)) (rnd : Rand) (prog payloadPath msg : String)
    (h : encode readPld asmbl rnd payloadPath = .error (.error msg)) :
    main readPld asmbl rnd [prog, payloadPath] =
      { stdout := ["Error:  " ++ msg, "\\x"], exitCode := 0 } := by
  simp only [main, List.length_cons, List.length_nil]
  have hp : [prog, payloadPath].getD 1 "" = payloadPath := rfl
  simp [hp, h, formatPld, hexEncodeToString]

/-- The witness of C12: the payload file cannot be read. -/
theorem main_prints_after_error_witness :
    main (fun _ => .error (.error "open payload.bin: no such file or directory"))
        (fun _ => .ok [0x90]) ⟨0x41, 0, 0, 0, 0, 0, 0⟩ ["je_ne_change_pas", "payload.bin"] =
      { stdout := ["Error:  " ++ "open payload.bin: no such file or directory", "\\x"],
        exitCode := 0 } :=
  main_prints_after_error (fun _ => .error (.error "open payload.bin: no such file or directory"))
    (fun _ => .ok [0x90]) ⟨0x41, 0, 0, 0, 0, 0, 0⟩ "je_ne_change_pas" "payload.bin" _ rfl

/-- C13: in the extraction branch the position-capture text is the state dump
followed directly by the pop, two instructions and no filler, whatever the filler
count drawn; the running offset nevertheless grows by 4 for each counted filler. -/
theorem fillers_counted_not_emitted (pldLen : Nat) (key : Byte) (rnd : Rand)
    (hcoin : rnd.coin % 2 = 0) :
    ∃ t, genDcdStbText pldLen key rnd = .ok t ∧
      t.getPcAsm = "fnstenv [esp-" ++ hexLit (rnd.fnstenvOffset % 12) ++ "]; " ++ ("pop " ++ t.pcReg) ∧
      t.getPcAsm.toList.count ';' = 1 ∧
      t.offsetToEncodedPayload =
        rnd.fnstenvOffset % 12 + 6 + 4 * (rnd.instructionsCount % 5 + 1) +
          (if pldLen < 256 then 2 else 4) := by
  obtain ⟨pcReg, xorKeyReg, junk, hpc, -, -, -, -, -, ht⟩ := genDcdStbText_ok pldLen key rnd
  refine ⟨_, ht, ?_, ?_, ?_⟩
  · simp only [hcoin, if_true]
  · simp only [hcoin, if_true]
    exact popText_semicolons _ _ (Nat.mod_lt _ (by decide)) hpc
  · simp only [offsetAfterGetPc, hcoin, if_true]

/-- The witness of C13: three fillers counted, none in the text. -/
theorem fillers_counted_not_emitted_witness :
    ∃ t, genDcdStbText 256 0x41 ⟨0, 0, 0, 0, 2, 0, 0⟩ = .ok t ∧
      t.getPcAsm = "fnstenv [esp-" ++ hexLit (0 % 12) ++ "]; " ++ ("pop " ++ t.pcReg) ∧
      t.getPcAsm.toList.count ';' = 1 ∧
      t.offsetToEncodedPayload = 0 % 12 + 6 + 4 * (2 % 5 + 1) + (if 256 < 256 then 2 else 4) :=
  fillers_counted_not_emitted 256 0x41 ⟨0, 0, 0, 0, 2, 0, 0⟩ (by decide)

/-- C14: for a payload shorter than 256 bytes the decode text is the counter move
alone: it holds no `xor`, and the whole text and offset computation is the same
for every key. -/
theorem short_payload_no_decode (pldLen : Nat) (key : Byte) (rnd : Rand) (hlen : pldLen < 256) :
    ∃ t, genDcdStbText pldLen key rnd = .ok t ∧
      t.xorAsm = "mov CL, " ++ hexLit pldLen ++ "; " ∧
      ¬ ("xor".toList <:+: t.xorAsm.toList) ∧
      ∀ key2 : Byte, genDcdStbText pldLen key2 rnd = .ok t := by
  obtain ⟨pcReg, xorKeyReg, junk, -, -, -, hpc, hkr, hj, ht⟩ := genDcdStbText_ok pldLen key rnd
  refine ⟨_, ht, ?_, ?_, ?_⟩
  · simp only [hlen, if_true, counterText]
  · simp only [hlen, if_true]
    exact counterText_no_xor pldLen hlen
  · intro key2
    obtain ⟨pcReg2, xorKeyReg2, junk2, -, -, -, hpc2, hkr2, hj2, ht2⟩ :=
      genDcdStbText_ok pldLen key2 rnd
    rw [hpc] at hpc2; rw [hkr] at hkr2; rw [hj] at hj2
    cases hpc2; cases hkr2; cases hj2
    rw [ht2]
    simp only [hlen, if_true]

/-- The witness of C14: a payload of 255 bytes. -/
theorem short_payload_no_decode_witness :
    ∃ t, genDcdStbText 255 0x41 ⟨0, 0, 0, 0, 0, 0, 0⟩ = .ok t ∧
      t.xorAsm = "mov CL, " ++ hexLit 255 ++ "; " ∧
      ¬ ("xor".toList <:+: t.xorAsm.toList) ∧
      ∀ key2 : Byte, genDcdStbText 255 key2 ⟨0, 0, 0, 0, 0, 0, 0⟩ = .ok t :=
  short_payload_no_decode 255 0x41 ⟨0, 0, 0, 0, 0, 0, 0⟩ (by decide)

/-- C15: for a payload of at least 256 bytes, when the extraction branch is
skipped the position-capture text is the state dump alone, with no `pop`, and
the decode loop still addresses memory with `pcReg` as its base. -/
theorem loop_base_without_pop (pldLen : Nat) (key : Byte) (rnd : Rand) (hlen : 256 ≤ pldLen)
    (hcoin : rnd.coin % 2 ≠ 0) :
    ∃ t, genDcdStbText pldLen key rnd = .ok t ∧
      t.getPcAsm = "fnstenv [esp-" ++ hexLit (rnd.fnstenvOffset % 12) ++ "]; " ∧
      ¬ ("pop".toList <:+: t.getPcAsm.toList) ∧
      t.xorAsm = "mov " ++ t.xorKeyReg ++ ", " ++ hexLit key.val ++ "; decode: xor [" ++ t.pcReg ++
        " + CL + " ++ hexLit (rnd.fnstenvOffset % 12 + 9) ++ "], " ++ t.xorKeyReg ++
        "; loop decode; " := by
  have hl : ¬ pldLen < 256 := by omega
  obtain ⟨pcReg, xorKeyReg, junk, -, -, -, -, -, -, ht⟩ := genDcdStbText_ok pldLen key rnd
  refine ⟨_, ht, ?_, ?_, ?_⟩
  · simp [hcoin]
  · simp only [hcoin, if_false, String.append_empty]
    exact fnstenvText_no_pop _ (Nat.mod_lt _ (by decide))
  · simp [hl, hcoin, loopText, offsetAfterGetPc]

/-- The witness of C15: 256 bytes, extraction skipped, position register EAX. -/
theorem loop_base_without_pop_witness :
    ∃ t, genDcdStbText 256 0x41 ⟨0, 0, 0, 1, 0, 0, 0⟩ = .ok t ∧
      t.getPcAsm = "fnstenv [esp-" ++ hexLit (0 % 12) ++ "]; " ∧
      ¬ ("pop".toList <:+: t.getPcAsm.toList) ∧
      t.xorAsm = "mov " ++ t.xorKeyReg ++ ", " ++ hexLit (0x41 : Byte).val ++ "; decode: xor [" ++
        t.pcReg ++ " + CL + " ++ hexLit (0 % 12 + 9) ++ "], " ++ t.xorKeyReg ++
        "; loop decode; " :=
  loop_base_without_pop 256 0x41 ⟨0, 0, 0, 1, 0, 0, 0⟩ (by decide) (by decide)

/-- C16: for a payload of at least 256 bytes the displacement printed in the
memory operand of the loop is the running offset minus one, where the offset is
`f + 6 + 4` when the extraction is skipped and `f + 6 + 4 * n + 4` when it is
taken, with `f` below 12 and `n` between 1 and 5; so the displacement lies
between 9 and 40 and fits a signed byte. -/
theorem displacement_range (pldLen : Nat) (key : Byte) (rnd : Rand) (hlen : 256 ≤ pldLen) :
    ∃ t d n, genDcdStbText pldLen key rnd = .ok t ∧ n = rnd.instructionsCount % 5 + 1 ∧
      t.xorAsm = "mov " ++ t.xorKeyReg ++ ", " ++ hexLit key.val ++ "; decode: xor [" ++ t.pcReg ++
        " + CL + " ++ hexLit d ++ "], " ++ t.xorKeyReg ++ "; loop decode; " ∧
      d = t.offsetToEncodedPayload - 1 ∧
      t.offsetToEncodedPayload =
        (if rnd.coin % 2 = 0 then t.fnstenvOffset + 6 + 4 * n + 4 else t.fnstenvOffset + 6 + 4) ∧
      t.fnstenvOffset < 12 ∧ 1 ≤ n ∧ n ≤ 5 ∧ 9 ≤ d ∧ d ≤ 40 ∧ d < 128 := by
  have hl : ¬ pldLen < 256 := by omega
  have hf : rnd.fnstenvOffset % 12 < 12 := Nat.mod_lt _ (by decide)
  have hn : rnd.instructionsCount % 5 < 5 := Nat.mod_lt _ (by decide)
  obtain ⟨pcReg, xorKeyReg, junk, -, -, -, -, -, -, ht⟩ := genDcdStbText_ok pldLen key rnd
  refine ⟨_, offsetAfterGetPc rnd + 4 - 1, rnd.instructionsCount % 5 + 1, ht, rfl, ?_, ?_, ?_,
    hf, by omega, by omega, ?_, ?_, ?_⟩
  · simp [hl, loopText]
  · simp [hl]
  · by_cases hc : rnd.coin % 2 = 0 <;> simp [hl, hc, offsetAfterGetPc]
  all_goals
    by_cases hc : rnd.coin % 2 = 0 <;> simp only [offsetAfterGetPc, hc, if_true, if_false] <;> omega

/-- The witness of C16: 256 bytes, extraction taken with five fillers counted and
the largest state-dump offset, which gives the displacement 40. -/
theorem displacement_range_witness :
    ∃ t d n, genDcdStbText 256 0x41 ⟨0, 0, 11, 0, 4, 0, 0⟩ = .ok t ∧ n = 4 % 5 + 1 ∧
      t.xorAsm = "mov " ++ t.xorKeyReg ++ ", " ++ hexLit (0x41 : Byte).val ++ "; decode: xor [" ++
        t.pcReg ++ " + CL + " ++ hexLit d ++ "], " ++ t.xorKeyReg ++ "; loop decode; " ∧
      d = t.offsetToEncodedPayload - 1 ∧
      t.offsetToEncodedPayload =
        (if 0 % 2 = 0 then t.fnstenvOffset + 6 + 4 * n + 4 else t.fnstenvOffset + 6 + 4) ∧
      t.fnstenvOffset < 12 ∧ 1 ≤ n ∧ n ≤ 5 ∧ 9 ≤ d ∧ d ≤ 40 ∧ d < 128 :=
  displacement_range 256 0x41 ⟨0, 0, 11, 0, 4, 0, 0⟩ (by decide)

/-- C17: when both texts assemble, the stub is the junk entry drawn by `randFPU`,
as it is, followed by the encoding of the position-capture text and then the
encoding of the decode text, each assembled by its own call; its length is 2 plus
the lengths of the two encodings. -/
theorem stub_layout (asmbl : String → Except Fault (List Byte)) (pldLen : Nat) (key : Byte)
    (rnd : Rand) (t : StubText) (a b : List Byte)
    (ht : genDcdStbText pldLen key rnd = .ok t) (ha : asmbl t.getPcAsm = .ok a)
    (hb : asmbl t.xorAsm = .ok b) :
    genDcdStb asmbl pldLen key rnd = .ok (t.junk ++ a ++ b) ∧
      randFPU rnd.fpu = .ok t.junk ∧ t.junk.length = 2 ∧
      (t.junk ++ a ++ b).length = 2 + a.length + b.length := by
  obtain ⟨pcReg, xorKeyReg, junk, -, -, hjmem, -, -, hj, ht2⟩ := genDcdStbText_ok pldLen key rnd
  rw [ht] at ht2
  cases ht2
  have hlen : junk.length = 2 := (fpuOpcodes_entries junk hjmem).1
  refine ⟨(genDcdStb_ok_iff _ _ _ _ _).2 ⟨_, a, b, ht, ha, hb, rfl⟩, hj, hlen, ?_⟩
  simp only [List.length_append, hlen]

/-- The witness of C17: an assembler that encodes every text as its character
count in one byte. -/
theorem stub_layout_witness :
    genDcdStb (fun code => .ok [byteOfNat code.length]) 256 0x41 ⟨0, 0, 0, 0, 0, 0, 0⟩ =
        .ok ([0xd9, 0xe8] ++ [26] ++ [61]) ∧
      randFPU 0 = .ok [0xd9, 0xe8] ∧ ([0xd9, 0xe8] : List Byte).length = 2 ∧
      (([0xd9, 0xe8] : List Byte) ++ [26] ++ [61]).length =
        2 + ([26] : List Byte).length + ([61] : List Byte).length :=
  stub_layout (fun code => .ok [byteOfNat code.length]) 256 0x41 ⟨0, 0, 0, 0, 0, 0, 0⟩
    { pcReg := "EAX", fnstenvOffset := 0, offsetToEncodedPayload := 14,
      getPcAsm := "fnstenv [esp-0x0]; pop EAX", xorKeyReg := "AL",
      xorAsm := "mov AL, 0x41; decode: xor [EAX + CL + 0xd], AL; loop decode; ",
      junk := [0xd9, 0xe8] } [26] [61] rfl rfl rfl

/-- C18: the junk catalog is a constant list of 84 pairwise distinct entries, each
of exactly 2 bytes with first byte 0xd9, 0xda, 0xdb or 0xdd, and for every draw
`randFPU` returns one of its entries. -/
theorem fpuOpcodes_catalog :
    fpuOpcodes.length = 84 ∧ fpuOpcodes.Nodup ∧
      (∀ e ∈ fpuOpcodes, e.length = 2 ∧
        (e.head? = some 0xd9 ∨ e.head? = some 0xda ∨ e.head? = some 0xdb ∨
          e.head? = some 0xdd)) ∧
      ∀ raw : Nat, ∃ e, e ∈ fpuOpcodes ∧ randFPU raw = .ok e := by
  refine ⟨fpuOpcodes_length, fpuOpcodes_nodup, fpuOpcodes_entries, ?_⟩
  intro raw
  rw [randFPU_eq_pick]
  exact pick_ok fpuOpcodes raw fpuOpcodes_ne_nil

/-- C19: `randReg(32, [])` has 6 candidates; for every draw it returns a register
for which `randReg(8, ["CL", pcReg])` has a non-empty candidate list and returns a
register for every draw; so the text and offset computation of `genDcdStb`
succeeds for every payload length, key and draws, and an error of `genDcdStb` can
only be an error of the assembler. -/
theorem register_selection_never_fails (pldLen : Nat) (key : Byte) (rnd : Rand) :
    (availableRegs 32 []).length = 6 ∧
      (∀ raw : Nat, ∃ pcReg, randReg 32 [] raw = .ok pcReg ∧
        availableRegs 8 ["CL", pcReg] ≠ [] ∧
        ∀ raw2 : Nat, ∃ xorKeyReg, randReg 8 ["CL", pcReg] raw2 = .ok xorKeyReg) ∧
      ∃ t, genDcdStbText pldLen key rnd = .ok t ∧
        ∀ (asmbl : String → Except Fault (List Byte)) (e : Fault),
          genDcdStb asmbl pldLen key rnd = .error e →
            asmbl t.getPcAsm = .error e ∨ asmbl t.xorAsm = .error e := by
  refine ⟨by decide, ?_, ?_⟩
  · intro raw
    obtain ⟨pcReg, hmem, hpick⟩ := pick_ok (availableRegs 32 []) raw (by decide)
    have h8 := availableRegs_8 pcReg hmem
    refine ⟨pcReg, hpick, by rw [h8]; decide, ?_⟩
    intro raw2
    obtain ⟨kr, -, hk⟩ := pick_ok (availableRegs 8 ["CL", pcReg]) raw2 (by rw [h8]; decide)
    exact ⟨kr, hk⟩
  · obtain ⟨pcReg, xorKeyReg, junk, -, -, -, -, -, -, ht⟩ := genDcdStbText_ok pldLen key rnd
    refine ⟨_, ht, ?_⟩
    intro asmbl e he
    rw [genDcdStb, ht] at he
    simp only at he
    cases ha : asmbl _ with
    | error e1 =>
      rw [ha] at he
      left
      cases he
      rfl
    | ok a =>
      rw [ha] at he
      cases hb : asmbl (StubText.xorAsm _) with
      | error e2 =>
        rw [hb] at he
        right
        cases he
        rfl
      | ok b =>
        rw [hb] at he
        cases he

/-- C20: under two different keys the encodings of a payload differ at every
index, so they differ as a whole when the payload is not empty; the key 0, which
`randByte` returns for the draw 0, leaves the payload as it is. -/
theorem encodePayload_keys_differ (payload : List Byte) (k1 k2 : Byte) (hk : k1 ≠ k2) :
    (∀ (i : Nat) (b1 b2 : Byte), (encodePayload payload k1)[i]? = some b1 →
        (encodePayload payload k2)[i]? = some b2 → b1 ≠ b2) ∧
      (payload ≠ [] → encodePayload payload k1 ≠ encodePayload payload k2) ∧
      encodePayload payload 0 = payload ∧ randByte 0 = 0 := by
  have hidx : ∀ (i : Nat) (b1 b2 : Byte), (encodePayload payload k1)[i]? = some b1 →
      (encodePayload payload k2)[i]? = some b2 → b1 ≠ b2 := by
    intro i b1 b2 h1 h2 hb
    rw [encodePayload_eq_map, List.getElem?_map] at h1 h2
    cases hp : payload[i]? with
    | none => rw [hp] at h1; cases h1
    | some b =>
      rw [hp] at h1 h2
      simp only [Option.map_some', Option.some.injEq] at h1 h2
      exact hk (xorByte_key_injective b k1 k2 (by rw [h1, h2, hb]))
  refine ⟨hidx, ?_, ?_, rfl⟩
  · intro hne heq
    cases payload with
    | nil => exact hne rfl
    | cons b rest =>
      have h1 : (encodePayload (b :: rest) k1)[0]? = some (xorByte b k1) := by
        rw [encodePayload_eq_map]; simp
      have h2 : (encodePayload (b :: rest) k2)[0]? = some (xorByte b k1) := by
        rw [← heq]; exact h1
      exact hidx 0 _ _ h1 h2 rfl
  · rw [encodePayload_eq_map]
    conv_rhs => rw [← List.map_id payload]
    apply List.map_congr_left
    intro b _
    exact xorByte_zero b

/-- The witness of C20: the keys 1 and 2 on a payload of two bytes. -/
theorem encodePayload_keys_differ_witness :
    (∀ (i : Nat) (b1 b2 : Byte), (encodePayload [0x10, 0x20] 1)[i]? = some b1 →
        (encodePayload [0x10, 0x20] 2)[i]? = some b2 → b1 ≠ b2) ∧
      (([0x10, 0x20] : List Byte) ≠ [] →
        encodePayload [0x10, 0x20] 1 ≠ encodePayload [0x10, 0x20] 2) ∧
      encodePayload [0x10, 0x20] 0 = [0x10, 0x20] ∧ randByte 0 = 0 :=
  encodePayload_keys_differ [0x10, 0x20] 1 2 (by decide)

end JeNeChangePas
